import Mathlib

/-!
# Verification of the workload-simulator signal generator

Shallow embedding of `src/apps/workload-simulator/server.js`: the
`computeUsers` signal generator, the `adjustMemory` resource-shadow
controller, and the `simulationTick` bookkeeping, over exact rational
arithmetic.  JavaScript numbers appearing in the source are modelled as
rationals (`ℚ`); `Math.round`, `Math.ceil`, `Math.max`, `Math.min` and the
remainder operator `%` are modelled by the functions `jsRound`, `jsCeil`,
`max`, `min` and `jsMod` below.  Random draws (`Math.random()`, values in
`[0, 1)`) and clock readings are passed as explicit parameters; the mutable
`stats.lastBurst` cell is threaded as an explicit `Option ℚ` value
(timestamps abstracted as rationals).
-/

namespace WorkloadSimulator

/-- JavaScript `Math.round x` (round half toward positive infinity):
`⌊x + 1/2⌋`. -/
def jsRound (x : ℚ) : ℤ := ⌊x + 1/2⌋

/-- JavaScript `Math.ceil`. -/
def jsCeil (x : ℚ) : ℤ := ⌈x⌉

/-- JavaScript `a % b` for a nonnegative dividend `a` and positive divisor
`b` (the only case arising in the simulator, where `a` is the elapsed time
since process start): `a - b * ⌊a / b⌋`. -/
def jsMod (a b : ℚ) : ℚ := a - b * ⌊a / b⌋

-- Configuration constants, lines 36-46 of server.js.
def PEAK_MINUTES : ℚ := 60
def OFF_MINUTES : ℚ := 60
def RAMP_MINUTES : ℚ := 5
def CYCLE_MINUTES : ℚ := PEAK_MINUTES + OFF_MINUTES + RAMP_MINUTES * 2
def MAX_USERS : ℚ := 80
def MIN_USERS : ℚ := 5
def PEAK_BASE : ℚ := 65
def OFF_BASE : ℚ := 10
def BURST_CHANCE : ℚ := 0.02
def BURST_MULTIPLIER : ℚ := 1.8

-- Per-call derived quantities of computeUsers (lines 67-70).
def cycleSec : ℚ := CYCLE_MINUTES * 60
def rampSec : ℚ := RAMP_MINUTES * 60
def peakSec : ℚ := PEAK_MINUTES * 60
def offSec : ℚ := OFF_MINUTES * 60

/-- `posInCycle = elapsed % cycleSec` (line 72). -/
def posInCycle (elapsed : ℚ) : ℚ := jsMod elapsed cycleSec

/-- The noise-free base level as a function of the position in the cycle:
the `if`/`else if` chain of lines 76-90 of `computeUsers`. -/
def baseOf (pos : ℚ) : ℚ :=
  if pos < rampSec then
    OFF_BASE + (PEAK_BASE - OFF_BASE) * (pos / rampSec)
  else if pos < rampSec + peakSec then
    PEAK_BASE
  else if pos < rampSec + peakSec + rampSec then
    PEAK_BASE - (PEAK_BASE - OFF_BASE) * ((pos - rampSec - peakSec) / rampSec)
  else
    OFF_BASE

/-- The noise-free base level at a given elapsed time (the deterministic
part of `computeUsers`: position in cycle, then the phase chain). -/
def baseAt (elapsed : ℚ) : ℚ := baseOf (posInCycle elapsed)

/-- `CyclePhase` of the spec's data model: the four-way classification
implicit in the `if` chain of lines 76-90. -/
inductive CyclePhase where
  | rampUp
  | peakPlateau
  | rampDown
  | offPlateau
  deriving DecidableEq

/-- Phase classification by the same cumulative-boundary comparisons as the
`if` chain of lines 76-90. -/
def classifyPhase (pos : ℚ) : CyclePhase :=
  if pos < rampSec then .rampUp
  else if pos < rampSec + peakSec then .peakPlateau
  else if pos < rampSec + peakSec + rampSec then .rampDown
  else .offPlateau

/-- The burst guard of line 97: `posInCycle >= rampSec && posInCycle <
rampSec + peakSec`. -/
def inBurstWindow (pos : ℚ) : Prop := rampSec ≤ pos ∧ pos < rampSec + peakSec

instance (pos : ℚ) : Decidable (inBurstWindow pos) :=
  inferInstanceAs (Decidable (_ ∧ _))

/-- Result of one `computeUsers` call: the returned value, the burst
multiplier applied on this call, and the new value of `stats.lastBurst`. -/
structure UsersResult where
  users : ℚ
  burst : ℚ
  lastBurst : Option ℚ
  deriving DecidableEq

/-- `computeUsers` (lines 65-105).  `elapsed` is the elapsed time in
seconds; `rNoise` and `rBurst` are the two `Math.random()` draws (noise,
line 93, and burst, line 98); `now` is the timestamp recorded into
`stats.lastBurst` when a burst fires (line 100); `lb` is the incoming value
of `stats.lastBurst`. -/
def computeUsers (elapsed rNoise rBurst now : ℚ) (lb : Option ℚ) : UsersResult :=
  let base := baseOf (posInCycle elapsed)
  let noise := base * (0.88 + rNoise * 0.24)
  let fired := inBurstWindow (posInCycle elapsed) ∧ rBurst < BURST_CHANCE
  let burst : ℚ := if fired then BURST_MULTIPLIER else 1
  let lb' : Option ℚ := if fired then some now else lb
  { users := max MIN_USERS (min (MAX_USERS * BURST_MULTIPLIER) ((jsRound (noise * burst) : ℤ) : ℚ))
    burst := burst
    lastBurst := lb' }

-- Arithmetic facts about the cycle constants and the position in the cycle.

lemma cycleSec_eq : cycleSec = 7800 := by
  norm_num [cycleSec, CYCLE_MINUTES, PEAK_MINUTES, OFF_MINUTES, RAMP_MINUTES]

lemma rampSec_eq : rampSec = 300 := by norm_num [rampSec, RAMP_MINUTES]

lemma peakSec_eq : peakSec = 3600 := by norm_num [peakSec, PEAK_MINUTES]

lemma posInCycle_nonneg (t : ℚ) : 0 ≤ posInCycle t := by
  have h : (0:ℚ) < 7800 := by norm_num
  have := Int.floor_le (t / 7800)
  rw [posInCycle, jsMod, cycleSec_eq]
  have h2 : (7800:ℚ) * ⌊t / 7800⌋ ≤ 7800 * (t / 7800) := by
    exact mul_le_mul_of_nonneg_left this (by norm_num)
  rw [mul_div_cancel₀ t (by norm_num : (7800:ℚ) ≠ 0)] at h2
  linarith

lemma posInCycle_lt (t : ℚ) : posInCycle t < cycleSec := by
  have := Int.lt_floor_add_one (t / 7800)
  rw [posInCycle, jsMod, cycleSec_eq]
  have h2 : (7800:ℚ) * (t / 7800) < 7800 * (⌊t / 7800⌋ + 1) := by
    exact mul_lt_mul_of_pos_left this (by norm_num)
  rw [mul_div_cancel₀ t (by norm_num : (7800:ℚ) ≠ 0)] at h2
  linarith

lemma posInCycle_eq_self (t : ℚ) (h0 : 0 ≤ t) (h1 : t < 7800) :
    posInCycle t = t := by
  rw [posInCycle, jsMod, cycleSec_eq]
  have : ⌊t / 7800⌋ = 0 := by
    rw [Int.floor_eq_zero_iff]
    constructor
    · positivity
    · rw [div_lt_one (by norm_num : (0:ℚ) < 7800)]; exact h1
  rw [this]
  push_cast
  ring

lemma posInCycle_add_cycle (t : ℚ) : posInCycle (t + cycleSec) = posInCycle t := by
  rw [posInCycle, posInCycle, jsMod, jsMod, cycleSec_eq]
  have harg : (t + 7800) / 7800 = t / 7800 + 1 := by
    field_simp
  rw [harg, Int.floor_add_one]
  push_cast
  ring

/-- C1: for every elapsed time and every outcome of the random draws, the
value returned by `computeUsers` satisfies
`min_users ≤ value ≤ max_users * burst_multiplier`, i.e. `5 ≤ value ≤ 144`
for the hardcoded configuration. -/
theorem computeUsers_bounds (elapsed rNoise rBurst now : ℚ) (lb : Option ℚ) :
    5 ≤ (computeUsers elapsed rNoise rBurst now lb).users ∧
    (computeUsers elapsed rNoise rBurst now lb).users ≤ 144 ∧
    MIN_USERS = 5 ∧ MAX_USERS * BURST_MULTIPLIER = 144 := by
  refine ⟨?_, ?_, by norm_num [MIN_USERS], by norm_num [MAX_USERS, BURST_MULTIPLIER]⟩
  · simp [computeUsers, MIN_USERS]
  · simp only [computeUsers]
    apply max_le
    · norm_num [MIN_USERS]
    · exact le_trans (min_le_left _ _) (by norm_num [MAX_USERS, BURST_MULTIPLIER])

/-- C2: `computeUsers` classifies the cycle position into four phases by
cumulative boundaries (`[0, ramp)` ramp-up, `[ramp, ramp+peak)`
peak-plateau, the next ramp-wide window ramp-down, the remainder
off-plateau) and computes the noise-free base level piecewise; with the
hardcoded configuration (ramp 300 s, peak 3600 s, off 3600 s, peak base 65,
off base 10) the base level is 10 at `elapsed = 0`, 65 at `elapsed = 300`,
65 at `elapsed = 3750`, and 37.5 at `elapsed = 4050`. -/
theorem computeUsers_phaseClassification (t : ℚ) :
    (posInCycle t < 300 → classifyPhase (posInCycle t) = CyclePhase.rampUp ∧
      baseAt t = OFF_BASE + (PEAK_BASE - OFF_BASE) * (posInCycle t / 300)) ∧
    (300 ≤ posInCycle t → posInCycle t < 300 + 3600 →
      classifyPhase (posInCycle t) = CyclePhase.peakPlateau ∧ baseAt t = PEAK_BASE) ∧
    (300 + 3600 ≤ posInCycle t → posInCycle t < 300 + 3600 + 300 →
      classifyPhase (posInCycle t) = CyclePhase.rampDown ∧
      baseAt t = PEAK_BASE - (PEAK_BASE - OFF_BASE) * ((posInCycle t - 300 - 3600) / 300)) ∧
    (300 + 3600 + 300 ≤ posInCycle t →
      classifyPhase (posInCycle t) = CyclePhase.offPlateau ∧ baseAt t = OFF_BASE) ∧
    rampSec = 300 ∧ peakSec = 3600 ∧ offSec = 3600 ∧
    baseAt 0 = 10 ∧ baseAt 300 = 65 ∧ baseAt 3750 = 65 ∧ baseAt 4050 = 37.5 := by
  have h300 : rampSec = 300 := rampSec_eq
  have h3600 : peakSec = 3600 := peakSec_eq
  refine ⟨?_, ?_, ?_, ?_, h300, h3600, by norm_num [offSec, OFF_MINUTES], ?_, ?_, ?_, ?_⟩
  · intro h
    rw [classifyPhase, baseAt, baseOf, h300]
    refine ⟨?_, ?_⟩ <;> (split_ifs <;> first | rfl | linarith)
  · intro h1 h2
    rw [classifyPhase, baseAt, baseOf, h300, h3600]
    refine ⟨?_, ?_⟩ <;> (split_ifs <;> first | rfl | linarith)
  · intro h1 h2
    rw [classifyPhase, baseAt, baseOf, h300, h3600]
    refine ⟨?_, ?_⟩ <;> (split_ifs <;> first | rfl | linarith)
  · intro h
    rw [classifyPhase, baseAt, baseOf, h300, h3600]
    refine ⟨?_, ?_⟩ <;> (split_ifs <;> first | rfl | linarith)
  · rw [baseAt, posInCycle_eq_self 0 le_rfl (by norm_num), baseOf, h300]
    norm_num [OFF_BASE]
  · rw [baseAt, posInCycle_eq_self 300 (by norm_num) (by norm_num), baseOf, h300, h3600]
    norm_num [PEAK_BASE]
  · rw [baseAt, posInCycle_eq_self 3750 (by norm_num) (by norm_num), baseOf, h300, h3600]
    norm_num [PEAK_BASE]
  · rw [baseAt, posInCycle_eq_self 4050 (by norm_num) (by norm_num), baseOf, h300, h3600]
    norm_num [PEAK_BASE, OFF_BASE]

/-- Witness for C2 at the concrete position `t = 100` (ramp-up). -/
theorem computeUsers_phaseClassification_witness :
    classifyPhase (posInCycle 100) = CyclePhase.rampUp ∧ baseAt 4050 = 37.5 := by
  have h := computeUsers_phaseClassification 100
  have hpos : posInCycle 100 = 100 := posInCycle_eq_self 100 (by norm_num) (by norm_num)
  exact ⟨(h.1 (by rw [hpos]; norm_num)).1, h.2.2.2.2.2.2.2.2.2.2⟩

/-- C5: the deterministic base level (noise and burst removed) is periodic
with period `cycle_length = peak_duration + off_duration + 2 * ramp_duration`:
for every elapsed time `t`, `base (t + cycle_length) = base t`. -/
theorem base_periodic (t : ℚ) (ht : 0 ≤ t) :
    baseAt (t + cycleSec) = baseAt t ∧
    cycleSec = peakSec + offSec + 2 * rampSec := by
  refine ⟨?_, by norm_num [cycleSec, peakSec, offSec, rampSec,
    CYCLE_MINUTES, PEAK_MINUTES, OFF_MINUTES, RAMP_MINUTES]⟩
  rw [baseAt, baseAt, posInCycle_add_cycle]

/-- Witness for C5 at `t = 100`. -/
theorem base_periodic_witness :
    baseAt (100 + cycleSec) = baseAt 100 ∧
    cycleSec = peakSec + offSec + 2 * rampSec :=
  base_periodic 100 (by norm_num)

lemma classifyPhase_peak_of_burstWindow (pos : ℚ) (h : inBurstWindow pos) :
    classifyPhase pos = CyclePhase.peakPlateau := by
  rw [classifyPhase, if_neg (not_lt.mpr h.1), if_pos h.2]

/-- C3: the burst multiplier applied by `computeUsers` is greater than 1
only when the position in the cycle is classified as peak-plateau; in every
other phase the multiplier equals 1; and `stats.lastBurst` is written only
during a peak-plateau burst (then it records the current timestamp) and is
never cleared otherwise. -/
theorem computeUsers_burstConfinement (elapsed rNoise rBurst now : ℚ) (lb : Option ℚ) :
    (1 < (computeUsers elapsed rNoise rBurst now lb).burst →
      classifyPhase (posInCycle elapsed) = CyclePhase.peakPlateau) ∧
    (classifyPhase (posInCycle elapsed) ≠ CyclePhase.peakPlateau →
      (computeUsers elapsed rNoise rBurst now lb).burst = 1) ∧
    ((computeUsers elapsed rNoise rBurst now lb).lastBurst ≠ lb →
      classifyPhase (posInCycle elapsed) = CyclePhase.peakPlateau ∧
      (computeUsers elapsed rNoise rBurst now lb).lastBurst = some now) ∧
    ((computeUsers elapsed rNoise rBurst now lb).lastBurst = none → lb = none) := by
  by_cases hf : inBurstWindow (posInCycle elapsed) ∧ rBurst < BURST_CHANCE
  · have hpk := classifyPhase_peak_of_burstWindow _ hf.1
    simp only [computeUsers, if_pos hf]
    refine ⟨fun _ => hpk, fun hne => absurd hpk hne, fun _ => ⟨hpk, by trivial⟩, fun h => ?_⟩
    exact absurd h (by simp)
  · simp only [computeUsers, if_neg hf]
    refine ⟨fun h => absurd h (by norm_num), fun _ => by trivial, fun h => absurd (by trivial) h,
      fun h => h⟩

/-- Witness for C3: at `elapsed = 1000` (peak plateau) with a burst draw
below `BURST_CHANCE`, the burst multiplier exceeds 1 and the phase is
peak-plateau. -/
theorem computeUsers_burstConfinement_witness :
    classifyPhase (posInCycle 1000) = CyclePhase.peakPlateau := by
  have h := computeUsers_burstConfinement 1000 0 0.01 42 none
  apply h.1
  have hpos : posInCycle 1000 = 1000 :=
    posInCycle_eq_self 1000 (by norm_num) (by norm_num)
  have hf : inBurstWindow (posInCycle 1000) ∧ (0.01:ℚ) < BURST_CHANCE := by
    rw [hpos]
    refine ⟨⟨?_, ?_⟩, ?_⟩ <;> norm_num [rampSec, peakSec, RAMP_MINUTES, PEAK_MINUTES, BURST_CHANCE]
  simp only [computeUsers, if_pos hf]
  norm_num [BURST_MULTIPLIER]

-- Values of the deterministic base level at the four phase boundaries.

lemma baseAt_eq_baseOf (t : ℚ) (h0 : 0 ≤ t) (h1 : t < 7800) :
    baseAt t = baseOf t := by
  rw [baseAt, posInCycle_eq_self t h0 h1]

lemma baseAt_boundary_300 : baseAt 300 = 65 := by
  rw [baseAt_eq_baseOf 300 (by norm_num) (by norm_num), baseOf, rampSec_eq, peakSec_eq]
  norm_num [PEAK_BASE]

lemma baseAt_boundary_3900 : baseAt 3900 = 65 := by
  rw [baseAt_eq_baseOf 3900 (by norm_num) (by norm_num), baseOf, rampSec_eq, peakSec_eq]
  norm_num [PEAK_BASE, OFF_BASE]

lemma baseAt_boundary_4200 : baseAt 4200 = 10 := by
  rw [baseAt_eq_baseOf 4200 (by norm_num) (by norm_num), baseOf, rampSec_eq, peakSec_eq]
  norm_num [OFF_BASE]

lemma baseAt_boundary_7800 : baseAt 7800 = 10 := by
  have : posInCycle 7800 = 0 := by
    rw [posInCycle, jsMod, cycleSec_eq]
    norm_num
  rw [baseAt, this, baseOf, rampSec_eq]
  norm_num [OFF_BASE, PEAK_BASE]

/-- C6: the deterministic base level is continuous from the left at every
phase boundary (ramp-up to peak at 300, peak to ramp-down at 3900,
ramp-down to off at 4200, and off wrapping to ramp-up at 7800 = cycle
length): the value at `boundary - e` converges to the value at the boundary
as `e` tends to 0. -/
theorem base_continuousAtBoundaries (ε : ℚ) (hε : 0 < ε) :
    ∃ δ : ℚ, 0 < δ ∧ ∀ e : ℚ, 0 < e → e < δ →
      |baseAt (300 - e) - baseAt 300| < ε ∧
      |baseAt (3900 - e) - baseAt 3900| < ε ∧
      |baseAt (4200 - e) - baseAt 4200| < ε ∧
      |baseAt (7800 - e) - baseAt 7800| < ε := by
  refine ⟨min 300 (60 * ε / 11), lt_min (by norm_num) (by positivity), ?_⟩
  intro e he hd
  have he300 : e < 300 := lt_of_lt_of_le hd (min_le_left _ _)
  have heε : e < 60 * ε / 11 := lt_of_lt_of_le hd (min_le_right _ _)
  have hb1 : baseAt (300 - e) = OFF_BASE + (PEAK_BASE - OFF_BASE) * ((300 - e) / 300) := by
    rw [baseAt_eq_baseOf _ (by linarith) (by linarith), baseOf, rampSec_eq,
      if_pos (by linarith)]
  have hb2 : baseAt (3900 - e) = 65 := by
    rw [baseAt_eq_baseOf _ (by linarith) (by linarith), baseOf, rampSec_eq, peakSec_eq,
      if_neg (by linarith), if_pos (by linarith)]
    norm_num [PEAK_BASE]
  have hb3 : baseAt (4200 - e) =
      PEAK_BASE - (PEAK_BASE - OFF_BASE) * ((4200 - e - 300 - 3600) / 300) := by
    rw [baseAt_eq_baseOf _ (by linarith) (by linarith), baseOf, rampSec_eq, peakSec_eq,
      if_neg (by linarith), if_neg (by linarith), if_pos (by linarith)]
  have hb4 : baseAt (7800 - e) = 10 := by
    rw [baseAt_eq_baseOf _ (by linarith) (by linarith), baseOf, rampSec_eq, peakSec_eq,
      if_neg (by linarith), if_neg (by linarith), if_neg (by linarith)]
    norm_num [OFF_BASE]
  refine ⟨?_, ?_, ?_, ?_⟩
  · rw [hb1, baseAt_boundary_300, OFF_BASE, PEAK_BASE, abs_lt]
    constructor <;> linarith
  · rw [hb2, baseAt_boundary_3900, abs_lt]
    constructor <;> linarith
  · rw [hb3, baseAt_boundary_4200, OFF_BASE, PEAK_BASE, abs_lt]
    constructor <;> linarith
  · rw [hb4, baseAt_boundary_7800, abs_lt]
    constructor <;> linarith

/-- Witness for C6 at `ε = 1`. -/
theorem base_continuousAtBoundaries_witness :
    ∃ δ : ℚ, 0 < δ ∧ ∀ e : ℚ, 0 < e → e < δ →
      |baseAt (300 - e) - baseAt 300| < 1 ∧
      |baseAt (3900 - e) - baseAt 3900| < 1 ∧
      |baseAt (4200 - e) - baseAt 4200| < 1 ∧
      |baseAt (7800 - e) - baseAt 7800| < 1 :=
  base_continuousAtBoundaries 1 (by norm_num)

/-- The noise-free base level always lies between `OFF_BASE = 10` and
`PEAK_BASE = 65` for nonnegative cycle positions. -/
lemma baseOf_bounds (pos : ℚ) (h0 : 0 ≤ pos) :
    10 ≤ baseOf pos ∧ baseOf pos ≤ 65 := by
  rw [baseOf, rampSec_eq, peakSec_eq, OFF_BASE, PEAK_BASE]
  split_ifs with h1 h2 h3
  · have hdiv0 : 0 ≤ pos / 300 := div_nonneg h0 (by norm_num)
    have hdiv1 : pos / 300 < 1 := by rw [div_lt_one (by norm_num : (0:ℚ) < 300)]; linarith
    constructor <;> linarith
  · constructor <;> norm_num
  · have hdiv0 : 0 ≤ (pos - 300 - 3600) / 300 :=
      div_nonneg (by linarith) (by norm_num)
    have hdiv1 : (pos - 300 - 3600) / 300 < 1 := by
      rw [div_lt_one (by norm_num : (0:ℚ) < 300)]; linarith
    constructor <;> linarith
  · constructor <;> norm_num

/-- C10: on every tick where no burst fires (the applied burst multiplier
is 1), the value returned by `computeUsers` never exceeds `MAX_USERS = 80`:
the noisy base is at most `65 * 1.12 = 72.8`, so rounding gives at most 73
and the loose clamp ceiling `max_users * burst_multiplier = 144` is never
the binding bound on a non-burst tick. -/
theorem computeUsers_noBurst_le_maxUsers (elapsed rNoise rBurst now : ℚ) (lb : Option ℚ)
    (h0 : 0 ≤ rNoise) (h1 : rNoise ≤ 1)
    (hb : (computeUsers elapsed rNoise rBurst now lb).burst = 1) :
    (computeUsers elapsed rNoise rBurst now lb).users ≤ 73 ∧
    (computeUsers elapsed rNoise rBurst now lb).users ≤ MAX_USERS := by
  by_cases hF : inBurstWindow (posInCycle elapsed) ∧ rBurst < BURST_CHANCE
  · simp only [computeUsers, if_pos hF] at hb
    norm_num [BURST_MULTIPLIER] at hb
  · have hbase := baseOf_bounds (posInCycle elapsed) (posInCycle_nonneg elapsed)
    have hnoisy : baseOf (posInCycle elapsed) * (0.88 + rNoise * 0.24) * 1 ≤ 72.8 := by
      nlinarith [hbase.1, hbase.2]
    have hround : jsRound (baseOf (posInCycle elapsed) * (0.88 + rNoise * 0.24) * 1) ≤ 73 := by
      rw [jsRound]
      calc ⌊baseOf (posInCycle elapsed) * (0.88 + rNoise * 0.24) * 1 + 1/2⌋
          ≤ ⌊(73.3 : ℚ)⌋ := Int.floor_le_floor (by linarith)
        _ = 73 := by norm_num
    have hmain : (computeUsers elapsed rNoise rBurst now lb).users ≤ 73 := by
      simp only [computeUsers, if_neg hF]
      apply max_le
      · norm_num [MIN_USERS]
      · refine le_trans (min_le_right _ _) ?_
        exact_mod_cast hround
    exact ⟨hmain, le_trans hmain (by norm_num [MAX_USERS])⟩

/-- Witness for C10 at `elapsed = 0` (off-to-peak ramp start, so no burst
window) with noise draw 0 and burst draw 1. -/
theorem computeUsers_noBurst_le_maxUsers_witness :
    (computeUsers 0 0 1 0 none).users ≤ 73 ∧
    (computeUsers 0 0 1 0 none).users ≤ MAX_USERS := by
  have hb : (computeUsers 0 0 1 0 none).burst = 1 := by
    simp only [computeUsers]
    rw [if_neg (fun h => absurd h.2 (by norm_num [BURST_CHANCE]))]
  exact computeUsers_noBurst_le_maxUsers 0 0 1 0 none le_rfl (by norm_num) hb

/-!
## Startup and configuration

Lines 36-46 define the configuration as hardcoded constants; line 445
(`app.listen`) starts the HTTP server and the tick loop unconditionally.
There is no configuration-validation code anywhere in the module, so
startup succeeds for every configuration value.
-/

/-- The configuration parameters of the simulator (the constants of lines
36-46, made explicit so that startup behavior can be stated for arbitrary
values). -/
structure SimConfig where
  peakMinutes : ℚ
  offMinutes : ℚ
  rampMinutes : ℚ
  maxUsers : ℚ
  minUsers : ℚ
  peakBase : ℚ
  offBase : ℚ
  burstChance : ℚ
  burstMultiplier : ℚ
  deriving DecidableEq

/-- The hardcoded configuration of lines 36-46. -/
def theConfig : SimConfig :=
  { peakMinutes := 60
    offMinutes := 60
    rampMinutes := 5
    maxUsers := 80
    minUsers := 5
    peakBase := 65
    offBase := 10
    burstChance := 0.02
    burstMultiplier := 1.8 }

/-- Startup, modelled from the module top level: the constants of lines
36-46 are bound with no checks and `app.listen` (line 445) runs
unconditionally, so the simulator starts whatever the configuration
values are.  There is no validation code in the source. -/
def serverStarts (_cfg : SimConfig) : Bool := true

/-- Modelled from the spec's words (error-handling design): a configuration
is valid when every phase duration is positive, both user bounds are
positive, and `min_users ≤ max_users`.  This is the validity predicate the
spec asks startup to enforce; it exists nowhere in the code. -/
def specValidConfig (cfg : SimConfig) : Prop :=
  0 < cfg.peakMinutes ∧ 0 < cfg.offMinutes ∧ 0 < cfg.rampMinutes ∧
  0 < cfg.minUsers ∧ 0 < cfg.maxUsers ∧ cfg.minUsers ≤ cfg.maxUsers

instance (cfg : SimConfig) : Decidable (specValidConfig cfg) :=
  inferInstanceAs (Decidable (_ ∧ _))

/-- Counterexample to C7: with `rampMinutes = 0` (a non-positive phase
duration, which the spec calls a fatal configuration error) the simulator
still starts — there is no validation at startup. -/
theorem serverStarts_invalidConfig_counterexample :
    ¬ specValidConfig { theConfig with rampMinutes := 0 } ∧
    serverStarts { theConfig with rampMinutes := 0 } = true := by
  constructor
  · intro h
    exact absurd h.2.2.1 (by norm_num [theConfig])
  · rfl

/-- C7 (amended): the simulator performs no configuration validation at
startup — it starts for every configuration — and the hardcoded
configuration happens to satisfy all the validity conditions (positive
phase durations, positive bounds, `min_users ≤ max_users`), so an invalid
configuration can never actually occur. -/
theorem serverStarts_noValidation :
    (∀ cfg : SimConfig, serverStarts cfg = true) ∧ specValidConfig theConfig := by
  refine ⟨fun _ => rfl, ?_⟩
  refine ⟨?_, ?_, ?_, ?_, ?_, ?_⟩ <;> norm_num [theConfig]

/-!
## Memory shadow controller

`adjustMemory` (lines 120-141).  Every held block is `Buffer.alloc(1024 *
1024, ...)`, i.e. exactly 1 MB, so the pool is modelled by its block count
`pool : ℕ` and `currentMB = pool`.  `Buffer.alloc` can throw; the
allocation outcomes of a tick are modelled by an oracle `alloc : ℕ → Bool`
(`alloc i` is whether the `i`-th allocation attempt of the growth loop of
lines 128-133 succeeds); the `catch { break }` makes the loop stop at the
first failure.  The function is total: an allocation failure is absorbed
inside it and never surfaces to the caller.
-/

/-- The growth loop of lines 128-133: starting at attempt index `i` with
`remaining` blocks still needed, push one block per successful allocation
and stop at the first failure. -/
def growLoop (alloc : ℕ → Bool) : ℕ → ℕ → ℕ → ℕ
  | _, 0, pool => pool
  | i, remaining + 1, pool =>
    if alloc i then growLoop alloc (i + 1) remaining (pool + 1) else pool

/-- The shrink loop of lines 136-139: pop up to `excess` blocks, stopping
when the pool is empty. -/
def popLoop : ℕ → ℕ → ℕ
  | 0, pool => pool
  | _ + 1, 0 => 0
  | excess + 1, pool + 1 => popLoop excess pool

/-- `adjustMemory` (lines 120-141): compute `targetMemMB = round(users *
0.5)`; grow the pool when below target (allocation attempts subject to the
oracle), shrink when more than 2 MB above target, otherwise leave it
unchanged.  `Math.ceil` is applied to differences of whole-MB quantities
exactly as in the source. -/
def adjustMemory (users : ℚ) (pool : ℕ) (alloc : ℕ → Bool) : ℕ :=
  let targetMemMB : ℤ := jsRound (users * 0.5)
  let currentMB : ℚ := pool
  if currentMB < (targetMemMB : ℚ) then
    growLoop alloc 0 (jsCeil ((targetMemMB : ℚ) - currentMB)).toNat pool
  else if currentMB > (targetMemMB : ℚ) + 2 then
    popLoop (jsCeil (currentMB - (targetMemMB : ℚ))).toNat pool
  else
    pool

lemma growLoop_all_true (r : ℕ) :
    ∀ i pool, growLoop (fun _ => true) i r pool = pool + r := by
  induction r with
  | zero => intro i pool; rfl
  | succ n ih =>
    intro i pool
    rw [growLoop, if_pos rfl, ih]
    omega

lemma growLoop_stops (alloc : ℕ → Bool) (r : ℕ) :
    ∀ k i pool, k < r → alloc (i + k) = false → (∀ j, j < k → alloc (i + j) = true) →
      growLoop alloc i r pool = pool + k := by
  induction r with
  | zero => intro k i pool hk; omega
  | succ n ih =>
    intro k i pool hk hfail hok
    match k with
    | 0 =>
      rw [growLoop]
      simp only [Nat.add_zero] at hfail
      rw [hfail]
      simp
    | k' + 1 =>
      have h0 : alloc i = true := by
        have := hok 0 (by omega)
        simpa using this
      rw [growLoop, if_pos h0]
      have := ih k' (i + 1) (pool + 1) (by omega)
        (by rw [show i + 1 + k' = i + (k' + 1) by omega]; exact hfail)
        (fun j hj => by
          rw [show i + 1 + j = i + (j + 1) by omega]
          exact hok (j + 1) (by omega))
      rw [this]
      omega

lemma popLoop_eq (e : ℕ) : ∀ pool, popLoop e pool = pool - e := by
  induction e with
  | zero => intro pool; rfl
  | succ n ih =>
    intro pool
    match pool with
    | 0 => simp [popLoop]
    | p + 1 =>
      rw [popLoop, ih]
      omega

/-- The `targetMemMB` of a nonnegative load is nonnegative. -/
lemma jsRound_half_nonneg (u : ℚ) (hu : 0 ≤ u) : 0 ≤ jsRound (u * 0.5) := by
  rw [jsRound]
  positivity

/-- `Math.ceil` applied to a difference of whole-MB quantities is exact. -/
lemma jsCeil_intCast_sub_natCast (a : ℤ) (b : ℕ) :
    jsCeil ((a : ℚ) - (b : ℚ)) = a - b := by
  rw [jsCeil, show (a : ℚ) - (b : ℚ) = ((a - b : ℤ) : ℚ) by push_cast; ring,
    Int.ceil_intCast]

/-- `Math.ceil` applied to a difference of whole-MB quantities is exact. -/
lemma jsCeil_natCast_sub_intCast (a : ℕ) (b : ℤ) :
    jsCeil ((a : ℚ) - (b : ℚ)) = (a : ℤ) - b := by
  rw [jsCeil, show (a : ℚ) - (b : ℚ) = (((a : ℤ) - b : ℤ) : ℚ) by push_cast; ring,
    Int.ceil_intCast]

/-- With every allocation succeeding, one `adjustMemory` call jumps to the
target when outside the hysteresis band and does nothing inside it. -/
lemma adjustMemory_true_eq (u : ℚ) (pool : ℕ) :
    adjustMemory u pool (fun _ => true) =
      if (pool : ℚ) < ((jsRound (u * 0.5) : ℤ) : ℚ) then (jsRound (u * 0.5)).toNat
      else if (pool : ℚ) > ((jsRound (u * 0.5) : ℤ) : ℚ) + 2 then (jsRound (u * 0.5)).toNat
      else pool := by
  simp only [adjustMemory]
  split_ifs with h1 h2
  · have hq : (pool : ℤ) < jsRound (u * 0.5) := by exact_mod_cast h1
    have hre : jsCeil (((jsRound (u * 0.5) : ℤ) : ℚ) - (pool : ℕ)) =
        jsRound (u * 0.5) - (pool : ℕ) := jsCeil_intCast_sub_natCast _ _
    rw [hre, growLoop_all_true]
    omega
  · have hq : jsRound (u * 0.5) + 2 < (pool : ℤ) := by exact_mod_cast h2
    have hre : jsCeil (((pool : ℕ) : ℚ) - ((jsRound (u * 0.5) : ℤ) : ℚ)) =
        ((pool : ℕ) : ℤ) - jsRound (u * 0.5) := jsCeil_natCast_sub_intCast _ _
    rw [hre, popLoop_eq]
    omega
  · rfl

/-- C4: with a constant load and no allocation failure, one `adjustMemory`
call brings the pool within the 2 MB hysteresis band of
`target_mb = round(load * 0.5)` and every further call with the same load
leaves it unchanged; a pool already in `[target_mb, target_mb + 2]` is
never touched; growing from an empty pool at load 100 yields exactly 50
one-megabyte blocks. -/
theorem adjustMemory_convergence (u : ℚ) (pool : ℕ) (hu : 0 ≤ u) :
    ((jsRound (u * 0.5) ≤ (pool : ℤ) ∧ (pool : ℤ) ≤ jsRound (u * 0.5) + 2) →
      adjustMemory u pool (fun _ => true) = pool) ∧
    jsRound (u * 0.5) ≤ (adjustMemory u pool (fun _ => true) : ℤ) ∧
    (adjustMemory u pool (fun _ => true) : ℤ) ≤ jsRound (u * 0.5) + 2 ∧
    adjustMemory u (adjustMemory u pool (fun _ => true)) (fun _ => true) =
      adjustMemory u pool (fun _ => true) ∧
    adjustMemory 100 0 (fun _ => true) = 50 := by
  have hT0 : 0 ≤ jsRound (u * 0.5) := jsRound_half_nonneg u hu
  have hband : ∀ q : ℕ, jsRound (u * 0.5) ≤ (q : ℤ) → (q : ℤ) ≤ jsRound (u * 0.5) + 2 →
      adjustMemory u q (fun _ => true) = q := by
    intro q hlo hhi
    rw [adjustMemory_true_eq u q,
      if_neg (by push_cast; exact_mod_cast not_lt.mpr (by exact_mod_cast hlo)),
      if_neg (by push_cast; exact_mod_cast not_lt.mpr (by exact_mod_cast hhi))]
  have hmem : jsRound (u * 0.5) ≤ (adjustMemory u pool (fun _ => true) : ℤ) ∧
      (adjustMemory u pool (fun _ => true) : ℤ) ≤ jsRound (u * 0.5) + 2 := by
    rw [adjustMemory_true_eq u pool]
    split_ifs with h1 h2
    · constructor <;> omega
    · constructor <;> omega
    · have hq1 : ¬ ((pool : ℤ) < jsRound (u * 0.5)) := fun hc => h1 (by exact_mod_cast hc)
      have hq2 : ¬ (jsRound (u * 0.5) + 2 < (pool : ℤ)) := fun hc => h2 (by exact_mod_cast hc)
      constructor <;> omega
  refine ⟨fun hb => hband pool hb.1 hb.2, hmem.1, hmem.2, hband _ hmem.1 hmem.2, ?_⟩
  have h50 : jsRound ((100 : ℚ) * 0.5) = 50 := by norm_num [jsRound]
  rw [adjustMemory_true_eq 100 0, h50]
  norm_num
  rfl

/-- Witness for C4 at load 100 from the empty pool. -/
theorem adjustMemory_convergence_witness :
    adjustMemory 100 0 (fun _ => true) = 50 :=
  (adjustMemory_convergence 100 0 (by norm_num)).2.2.2.2

/-- C8: if the `k`-th block allocation of the growth loop fails (all
earlier ones succeeding) while the pool is still below target, then
`adjustMemory` stops growing for that tick, keeps the `k` blocks already
allocated, and returns normally with the target still unmet; a later call
with the same load and no allocation failure completes the growth to the
target. -/
theorem adjustMemory_allocFailure (u : ℚ) (pool k : ℕ) (alloc : ℕ → Bool)
    (hk : (pool : ℤ) + k < jsRound (u * 0.5))
    (hfail : alloc k = false)
    (hok : ∀ j, j < k → alloc j = true) :
    adjustMemory u pool alloc = pool + k ∧
    ((pool + k : ℕ) : ℤ) < jsRound (u * 0.5) ∧
    adjustMemory u (pool + k) (fun _ => true) = (jsRound (u * 0.5)).toNat := by
  have hlt : (pool : ℚ) < ((jsRound (u * 0.5) : ℤ) : ℚ) := by
    have : (pool : ℤ) < jsRound (u * 0.5) := by omega
    exact_mod_cast this
  have hstep : adjustMemory u pool alloc = pool + k := by
    simp only [adjustMemory, if_pos hlt]
    rw [jsCeil_intCast_sub_natCast]
    exact growLoop_stops alloc _ k 0 pool (by omega) (by simpa using hfail)
      (fun j hj => by simpa using hok j hj)
  refine ⟨hstep, by omega, ?_⟩
  rw [adjustMemory_true_eq u (pool + k),
    if_pos (by exact_mod_cast (show ((pool + k : ℕ) : ℤ) < jsRound (u * 0.5) by omega))]

/-- Witness for C8: at load 100 from an empty pool with the fourth
allocation attempt failing, the tick keeps 3 blocks and the retry tick with
all allocations succeeding reaches the 50 MB target. -/
theorem adjustMemory_allocFailure_witness :
    adjustMemory 100 0 (fun i => decide (i < 3)) = 3 ∧
    adjustMemory 100 3 (fun _ => true) = 50 := by
  have h := adjustMemory_allocFailure 100 0 3 (fun i => decide (i < 3))
    (by norm_num [jsRound]) (by decide) (fun j hj => by simp [hj])
  have h50 : jsRound ((100 : ℚ) * 0.5) = 50 := by norm_num [jsRound]
  refine ⟨by simpa using h.1, ?_⟩
  have h3 := h.2.2
  rw [h50] at h3
  simpa using h3

/-!
## Tick bookkeeping

`simulationTick` (lines 144-163).  The mutable module state (lines 49-61)
is a record; the CPU-burn duration measured by `process.hrtime` and the
resident-set size read from `process.memoryUsage()` are environment inputs
of the tick (`cpuMs`, `memUsed`), as are the two random draws and the two
clock readings consumed by `computeUsers`.
-/

/-- The `stats` object (lines 53-61). -/
structure Stats where
  totalRequests : ℚ
  tickCount : ℕ
  lastBurst : Option ℚ
  peakUsers : ℚ
  peakCpuMs : ℚ
  peakMemMB : ℚ
  deriving DecidableEq

/-- The mutable module state driven by the tick loop: `currentUsers`,
`memoryBlocks` (number of held 1 MB blocks) and `stats`. -/
structure SimState where
  currentUsers : ℚ
  memoryBlocks : ℕ
  stats : Stats
  deriving DecidableEq

/-- `simulationTick` (lines 144-163): compute the users signal (which may
record a burst timestamp), bump the tick and cumulative-request counters,
burn CPU (its measured duration `cpuMs` is an input here), adjust the
memory pool, and track peak maxima. -/
def simulationTick (elapsed rNoise rBurst now cpuMs memUsed : ℚ)
    (alloc : ℕ → Bool) (s : SimState) : SimState :=
  let r := computeUsers elapsed rNoise rBurst now s.stats.lastBurst
  let users := r.users
  let pool := adjustMemory users s.memoryBlocks alloc
  { currentUsers := users
    memoryBlocks := pool
    stats :=
      { totalRequests := s.stats.totalRequests + users
        tickCount := s.stats.tickCount + 1
        lastBurst := r.lastBurst
        peakUsers := if users > s.stats.peakUsers then users else s.stats.peakUsers
        peakCpuMs := if cpuMs > s.stats.peakCpuMs then cpuMs else s.stats.peakCpuMs
        peakMemMB := if memUsed > s.stats.peakMemMB then memUsed else s.stats.peakMemMB } }

/-- C9: each `simulationTick` increments the tick counter by exactly 1 and
adds the current simulated load to the cumulative request counter, so both
counters never decrease; the peak trackers (peak users, peak CPU-burn
duration, peak memory) are updated only by taking a maximum and never
decrease. -/
theorem simulationTick_monotoneStats (elapsed rNoise rBurst now cpuMs memUsed : ℚ)
    (alloc : ℕ → Bool) (s : SimState) :
    (simulationTick elapsed rNoise rBurst now cpuMs memUsed alloc s).stats.tickCount =
      s.stats.tickCount + 1 ∧
    (simulationTick elapsed rNoise rBurst now cpuMs memUsed alloc s).stats.totalRequests =
      s.stats.totalRequests +
        (computeUsers elapsed rNoise rBurst now s.stats.lastBurst).users ∧
    s.stats.totalRequests ≤
      (simulationTick elapsed rNoise rBurst now cpuMs memUsed alloc s).stats.totalRequests ∧
    s.stats.tickCount ≤
      (simulationTick elapsed rNoise rBurst now cpuMs memUsed alloc s).stats.tickCount ∧
    s.stats.peakUsers ≤
      (simulationTick elapsed rNoise rBurst now cpuMs memUsed alloc s).stats.peakUsers ∧
    s.stats.peakCpuMs ≤
      (simulationTick elapsed rNoise rBurst now cpuMs memUsed alloc s).stats.peakCpuMs ∧
    s.stats.peakMemMB ≤
      (simulationTick elapsed rNoise rBurst now cpuMs memUsed alloc s).stats.peakMemMB := by
  have husers : (0 : ℚ) ≤ (computeUsers elapsed rNoise rBurst now s.stats.lastBurst).users := by
    refine le_trans (by norm_num [MIN_USERS]) (le_max_left MIN_USERS _)
  simp only [simulationTick]
  refine ⟨by trivial, by trivial, by linarith, by omega, ?_, ?_, ?_⟩ <;>
    (split_ifs with h; exact le_of_lt h; exact le_rfl)

end WorkloadSimulator
